/-
Verification of the VM-to-assembly translator (tokenizer, parser, symbol
table, code generator) of the rust_hack_virtualmachine repository.

Shallow embedding conventions:
* Rust `String`/`&str` are Lean `String`; `u16` values are `Nat`, and every
  `u16` arithmetic step of the source carries an explicit `< 65536` overflow
  guard.  Arithmetic overflow aborts the process in the default (debug)
  build profile of the source; an abort (from overflow or from `Option::unwrap` /
  `Result::unwrap` on an empty value) is modelled by the `crash` constructor
  of the result types below, distinct from an `err` return.
* `Result<T, E>` returns are modelled by `RRes E T` (plus the `crash` case);
  Rust functions returning `Option`/plain values that can only abort are
  modelled by `RRun T`.
* The source regexes are used unanchored via `Regex::is_match`; each regex
  of `default_ruleset` is one of three shapes (a `^`-anchored literal, a bare
  literal, a character class), modelled by the `Pat` type below.
-/
import Mathlib

set_option maxRecDepth 10000

/-- Result of running a piece of Rust code that returns `Result<α, ε>`:
either a normal `ok`/`err` return, or `crash` when the code aborts the
process (integer overflow in debug profile, `unwrap` of an empty value). -/
inductive RRes (ε : Type) (α : Type) where
  | crash : RRes ε α
  | err (e : ε) : RRes ε α
  | ok (a : α) : RRes ε α
deriving DecidableEq, Repr

/-- Result of running Rust code that either returns a value or aborts. -/
inductive RRun (α : Type) where
  | crash : RRun α
  | ret (a : α) : RRun α
deriving DecidableEq, Repr

/-- RRes.isOk: decidable success test used to state theorems without
spelling out the (large) successful value. -/
def RRes.isOk {ε α : Type} : RRes ε α → Bool
  | .ok _ => true
  | _ => false

/-! ## Tokenizer (src/src/lib/tokenizer.rs) -/

/-- TokenType enum of tokenizer.rs. -/
inductive TokenType where
  | Push | Pop | Add | Subtract | Negate | Equal | LessThan | GreaterThan
  | And | Or | Not | Symbol | Index | Comment | Label | If | Goto
  | Function | Call | Return | Undefined
deriving DecidableEq, Repr

/-- Token struct of tokenizer.rs: the text of the matched word, its kind, and
whether the matching rule is a keyword rule. -/
structure Token where
  token : String
  token_type : TokenType
  is_keyword : Bool
deriving DecidableEq, Repr

/-- Token::new — note the text field starts as `String::new()` (empty). -/
def Token.new (token_type : TokenType) : Token :=
  { token := "", token_type := token_type, is_keyword := false }

/-- Token::from (named fromParts because `from` is a Lean keyword). -/
def Token.fromParts (token : String) (token_type : TokenType) (is_keyword : Bool) : Token :=
  { token := token, token_type := token_type, is_keyword := is_keyword }

def TokenList := List Token
deriving DecidableEq

/-- Boolean list-prefix test over characters (Regex `^pat` on the word). -/
def pfxB : List Char → List Char → Bool
  | [], _ => true
  | _ :: _, [] => false
  | a :: as, b :: bs => a == b && pfxB as bs

/-- Boolean contiguous-sublist test over characters (unanchored
`Regex::is_match` of a literal pattern). -/
def subL (p : List Char) : List Char → Bool
  | [] => p.isEmpty
  | c :: cs => pfxB p (c :: cs) || subL p cs

/-- The three regex shapes appearing in `default_ruleset`. -/
inductive Pat where
  | startsWith (p : String)
  | containsLit (p : String)
  | charClass (good : Char → Bool)

/-- Pat.matchesWord w: unanchored `Regex::is_match(w)` for the pattern. -/
def Pat.matchesWord : Pat → String → Bool
  | .startsWith p, w => pfxB p.data w.data
  | .containsLit p, w => subL p.data w.data
  | .charClass good, w => w.data.any good

/-- Character class `[a-z_.]` of the Symbol rule. -/
def isSymbolClassChar (c : Char) : Bool :=
  (97 ≤ c.toNat && c.toNat ≤ 122) || c == '_' || c == '.'

/-- Character class `[0-9]` of the Index rule. -/
def isIndexClassChar (c : Char) : Bool :=
  48 ≤ c.toNat && c.toNat ≤ 57

/-- MatchRule struct of tokenizer.rs. -/
structure MatchRule where
  return_type : TokenType
  rule : Pat
  is_keyword : Bool

/-- MatchRule::matches_str. -/
def MatchRule.matches_str (self : MatchRule) (input : String) : Bool :=
  self.rule.matchesWord input

/-- default_ruleset of tokenizer.rs, in source order (order is load-bearing:
keyword rules run before the generic Symbol/Index rules, the Comment rule
first of all). -/
def default_ruleset : List MatchRule := [
  ⟨.Comment, .startsWith "//", false⟩,
  ⟨.Push, .containsLit "push", true⟩,
  ⟨.Pop, .containsLit "pop", true⟩,
  ⟨.Add, .containsLit "add", true⟩,
  ⟨.Subtract, .containsLit "sub", true⟩,
  ⟨.Negate, .containsLit "neg", true⟩,
  ⟨.Equal, .containsLit "eq", true⟩,
  ⟨.GreaterThan, .containsLit "gt", true⟩,
  ⟨.LessThan, .containsLit "lt", true⟩,
  ⟨.And, .containsLit "and", true⟩,
  ⟨.Or, .containsLit "or", true⟩,
  ⟨.Not, .containsLit "not", true⟩,
  ⟨.Label, .containsLit "label", true⟩,
  ⟨.If, .containsLit "if-goto", true⟩,
  ⟨.Goto, .containsLit "goto", true⟩,
  ⟨.Function, .containsLit "function", true⟩,
  ⟨.Call, .containsLit "call", true⟩,
  ⟨.Return, .containsLit "return", true⟩,
  ⟨.Symbol, .charClass isSymbolClassChar, false⟩,
  ⟨.Index, .charClass isIndexClassChar, false⟩
]

/-- The inner loop body of Tokenizer::tokenize for one word: start with
`Token::new(Undefined)`, take the first rule that matches, else keep the
Undefined token (whose text is the empty string). -/
def tokenizeWord (rules : List MatchRule) (word : String) : Token :=
  match rules.find? (fun r => r.matches_str word) with
  | some r => Token.fromParts word r.return_type r.is_keyword
  | none => Token.new .Undefined

/-- The word loop of Tokenizer::tokenize: push one token per word, and stop
immediately after pushing a Comment token. -/
def tokenizeWords (rules : List MatchRule) : List String → TokenList
  | [] => []
  | w :: ws =>
    let token := tokenizeWord rules w
    if token.token_type = TokenType.Comment then [token]
    else token :: tokenizeWords rules ws

/-- Whitespace split of `input.trim().split_whitespace()`: splits on
whitespace characters, never yields empty words. `cur` accumulates the
current word in reverse. -/
def splitWords : List Char → List Char → List (List Char)
  | [], cur => if cur.isEmpty then [] else [cur.reverse]
  | c :: rest, cur =>
    if c.isWhitespace then
      if cur.isEmpty then splitWords rest [] else cur.reverse :: splitWords rest []
    else splitWords rest (c :: cur)

/-- Tokenizer struct of tokenizer.rs. -/
structure Tokenizer where
  match_rules : List MatchRule

/-- Tokenizer::from (named fromRules because `from` is a Lean keyword). -/
def Tokenizer.fromRules (match_rules : List MatchRule) : Tokenizer :=
  { match_rules := match_rules }

/-- Tokenizer::tokenize — the source wraps the token list in `Ok(...)` and
never returns `Err`; the embedding returns the list directly. -/
def Tokenizer.tokenize (self : Tokenizer) (input : String) : TokenList :=
  tokenizeWords self.match_rules ((splitWords input.data []).map List.asString)

/-- The tokenizer with the default ruleset, as built by the driver. -/
def defaultTokenizer : Tokenizer := Tokenizer.fromRules default_ruleset

/-! ## Parser (src/src/lib/parser.rs) -/

/-- Command enum of parser.rs.  `u16` payloads are `Nat` (the parser only
produces values below 2^16, see `parseU16`). -/
inductive Command where
  | Push (segment : String) (index : Nat) (class_name : String)
  | Pop (segment : String) (index : Nat) (class_name : String)
  | Arithmetic (t : TokenType)
  | Goto (label : String)
  | If (label : String)
  | Label (label : String)
  | Function (symbol : String) (nvars : Nat)
  | Call (symbol : String) (nargs : Nat)
  | Return
deriving DecidableEq, Repr

/-- The two error structs of parser.rs (ArgumentError carries the command
category string, both carry the parser field `next_command` as line number). -/
inductive ParseError where
  | ArgumentError (command_type : String) (line_number : Nat)
  | KeywordError (line_number : Nat)
deriving DecidableEq, Repr

/-- Value of an ASCII digit character. -/
def digitVal (c : Char) : Nat := c.toNat - 48

/-- Rust `str::parse::<u16>()`: optional leading `+`, then one or more ASCII
digits, value below 2^16; anything else (including overflow) is a parse
error, `none` here. -/
def parseU16 (s : String) : Option Nat :=
  let ds := match s.data with
    | '+' :: t => t
    | t => t
  if ds.isEmpty then none
  else if ds.all isIndexClassChar then
    let v := ds.foldl (fun a c => a * 10 + digitVal c) 0
    if v < 65536 then some v else none
  else none

/-- Parser struct of parser.rs.  `next_command` and `total_commands` are
`u16` in the source; they are `Nat` here with the u16 arithmetic made
explicit at each operation. -/
structure Parser where
  tokens : List TokenList
  next_command : Nat
  total_commands : Nat
  class_name : String
deriving DecidableEq

/-- Parser::from (named fromLines because `from` is a Lean keyword).
`total_commands` is `tokens.len() as u16`, hence the truncation. -/
def Parser.fromLines (tokens : List TokenList) (class_name : String) : Parser :=
  { tokens := tokens
    next_command := 0
    total_commands := tokens.length % 65536
    class_name := class_name }

/-- Parser::mem_access_parse.  The inner `arg2.token.parse::<u16>().unwrap()`
aborts when the text of the Index token is not a valid u16, hence the `RRun`. -/
def Parser.mem_access_parse (c arg1 arg2 : Token) (class_name : String) :
    RRun (Option Command) :=
  if arg1.token_type = TokenType.Symbol ∧ arg2.token_type = TokenType.Index then
    match c.token_type with
    | .Push =>
      match parseU16 arg2.token with
      | some idx => .ret (some (.Push arg1.token idx class_name))
      | none => .crash
    | .Pop =>
      match parseU16 arg2.token with
      | some idx => .ret (some (.Pop arg1.token idx class_name))
      | none => .crash
    | _ => .ret none
  else .ret none

/-- Parser::control_flow_parse. -/
def Parser.control_flow_parse (c arg1 : Token) : Option Command :=
  if arg1.token_type = TokenType.Symbol then
    match c.token_type with
    | .Label => some (.Label arg1.token)
    | .Goto => some (.Goto arg1.token)
    | .If => some (.If arg1.token)
    | _ => none
  else none

/-- Parser::function_command_parse (same `parse::<u16>().unwrap()` abort as
mem_access_parse). -/
def Parser.function_command_parse (c arg1 arg2 : Token) : RRun (Option Command) :=
  if arg1.token_type = TokenType.Symbol ∧ arg2.token_type = TokenType.Index then
    match c.token_type with
    | .Function =>
      match parseU16 arg2.token with
      | some n => .ret (some (.Function arg1.token n))
      | none => .crash
    | .Call =>
      match parseU16 arg2.token with
      | some n => .ret (some (.Call arg1.token n))
      | none => .crash
    | _ => .ret none
  else .ret none

/-- Parser::arithmetic_parse — always `Some(Arithmetic(c.token_type))`. -/
def Parser.arithmetic_parse (c : Token) : Option Command :=
  some (.Arithmetic c.token_type)

/-- Parser::parse.  Empty line / full-line comment give `Ok(None)`; a
non-keyword first token gives `KeywordError`; each command shape reads its
operands from the token iterator — `t_iter.next().unwrap()` aborts (crash)
when a required operand token is missing. -/
def Parser.parse (self : Parser) (token_list : TokenList) :
    RRes ParseError (Option Command) :=
  match token_list with
  | [] => .ok none
  | c :: rest =>
    if c.token_type = TokenType.Comment then .ok none
    else if ¬ c.is_keyword then .err (.KeywordError self.next_command)
    else
      match c.token_type with
      | .Pop | .Push =>
        match rest with
        | arg1 :: arg2 :: _ =>
          match Parser.mem_access_parse c arg1 arg2 self.class_name with
          | .ret (some comm) => .ok (some comm)
          | .ret none => .err (.ArgumentError "Memory Access" self.next_command)
          | .crash => .crash
        | _ => .crash
      | .Label | .If | .Goto =>
        match rest with
        | arg1 :: _ =>
          match Parser.control_flow_parse c arg1 with
          | some comm => .ok (some comm)
          | none => .err (.ArgumentError "Control Flow" self.next_command)
        | _ => .crash
      | .Call | .Function =>
        match rest with
        | arg1 :: arg2 :: _ =>
          match Parser.function_command_parse c arg1 arg2 with
          | .ret (some comm) => .ok (some comm)
          | .ret none => .err (.ArgumentError "Function" self.next_command)
          | .crash => .crash
        | _ => .crash
      | .Return => .ok (some .Return)
      | _ =>
        -- arithmetic_parse never returns None, so its ArgumentError arm is dead
        match Parser.arithmetic_parse c with
        | some comm => .ok (some comm)
        | none => .err (.ArgumentError "Function" self.next_command)

/-- Parser::has_more_commands — `total_commands - next_command` is u16
subtraction; underflow aborts (debug profile). -/
def Parser.has_more_commands (self : Parser) : RRun Bool :=
  if self.next_command ≤ self.total_commands then
    .ret (decide (self.total_commands - self.next_command > 0))
  else .crash

/-- Parser::advance: look the current line up (`unwrap` aborts past the
end), increment the u16 cursor (overflow aborts in debug profile), then
parse the line with the incremented cursor in `self`. -/
def Parser.advance (self : Parser) : RRes ParseError (Option Command) × Parser :=
  match self.tokens.get? self.next_command with
  | none => (.crash, self)
  | some token_list =>
    if self.next_command + 1 < 65536 then
      let p := { self with next_command := self.next_command + 1 }
      (p.parse token_list, p)
    else (.crash, self)

/-- Iterated Parser::advance (driver loop), keeping only the parser state. -/
def advanceN : Nat → Parser → Parser
  | 0, p => p
  | n + 1, p => (advanceN n p).advance.2

/-! ## SymbolTable with Address values

writer.rs imports `lib::symbol_table::{Address, SymbolTable}` and matches on
`Address::Relative`/`Address::Absolute`, but the file checked in at
src/src/lib/symbol_table.rs is an assembler-era symbol table (register names
to `u16`) that defines no `Address` type: the VM-translator SymbolTable that
writer.rs actually compiles against is missing from src/.  It is therefore
modelled from the spec below. -/

/-- Modelled from the spec: the `Address` value type of the missing
VM-translator symbol_table.rs — "a two-case variant — `Relative(base_symbol)`
meaning the effective segment address is `*base_symbol + index` ... or
`Absolute(base_value)` meaning the effective address is the literal
`base_value + index`" (§3).  `Relative` carries the symbolic name of the
base register (writer.rs formats it into an `@symbol` instruction), `Absolute` a u16
base value. -/
inductive Address where
  | Relative (base_symbol : String)
  | Absolute (base_value : Nat)
deriving DecidableEq, Repr

/-- Modelled from the spec: the missing VM-translator SymbolTable struct —
a map from segment names to `Address`, "constructed empty, populated once at
startup with the six built-in entries" (§3).  Modelled as an association
list; insertion prepends, lookup takes the first hit, so later inserts
shadow earlier ones exactly like `HashMap::insert`. -/
structure SymbolTable where
  symbols : List (String × Address)
deriving DecidableEq

/-- Modelled from the spec: SymbolTable::new — empty table. -/
def SymbolTable.new : SymbolTable := ⟨[]⟩

/-- Modelled from the spec: SymbolTable::add_entry (HashMap::insert). -/
def SymbolTable.add_entry (self : SymbolTable) (symbol : String) (address : Address) :
    SymbolTable :=
  ⟨(symbol, address) :: self.symbols⟩

/-- Modelled from the spec: the STARTINGTABLE constant of the missing
VM-translator symbol_table.rs.  §3 fixes the contents: `local`, `argument`,
`this`, `that` are base-register indirection ("the local/argument/this/that
addressing mode", via the LCL/ARG/THIS/THAT registers used by the
call/return protocol of writer.rs) and `temp` is "no indirection, fixed base 5"; §3 also
states that `constant` and `static` "are handled specially outside the
table", so they have no entries. -/
def STARTINGTABLE : List (String × Address) := [
  ("local", .Relative "LCL"),
  ("argument", .Relative "ARG"),
  ("this", .Relative "THIS"),
  ("that", .Relative "THAT"),
  ("temp", .Absolute 5)
]

/-- Modelled from the spec: SymbolTable::load_starting_table — insert every
STARTINGTABLE entry. -/
def SymbolTable.load_starting_table (self : SymbolTable) : SymbolTable :=
  STARTINGTABLE.foldl (fun st e => st.add_entry e.1 e.2) self

/-- Modelled from the spec: SymbolTable::get_address — HashMap::get. -/
def SymbolTable.get_address (self : SymbolTable) (symbol : String) : Option Address :=
  self.symbols.lookup symbol

/-- The table the driver builds once at startup: `SymbolTable::new()`
followed by `load_starting_table()` (vm.rs). -/
def startupTable : SymbolTable := SymbolTable.new.load_starting_table

/-! ## CodeGenerator (src/src/lib/writer.rs) -/

/-- AsmWriter struct of writer.rs.  `line_count` and `branch_count` are
`u16` in the source; `Nat` here with explicit overflow guards at each
increment. -/
structure AsmWriter where
  line_count : Nat
  branch_count : Nat
  symbol_table : SymbolTable
deriving DecidableEq

/-- AsmWriter::from (named fromTable because `from` is a Lean keyword). -/
def AsmWriter.fromTable (symbol_table : SymbolTable) : AsmWriter :=
  { line_count := 0, branch_count := 0, symbol_table := symbol_table }

/-- AsmWriter::push_from_a. -/
def push_from_a : String := "D=A\n@SP\nA=M\nM=D\n@SP\nM=M+1\n"

/-- AsmWriter::push_from_m. -/
def push_from_m : String := "D=M\n@SP\nA=M\nM=D\n@SP\nM=M+1\n"

/-- AsmWriter::push_from_d. -/
def push_from_d : String := "@SP\nA=M\nM=D\n@SP\nM=M+1\n"

/-- AsmWriter::write_pop_to_d. -/
def write_pop_to_d : String := "@SP\nAM=M-1\nD=M\n"

/-- AsmWriter::peek_next_value. -/
def peek_next_value : String := "@SP\nAM=M-1\n"

/-- AsmWriter::value_from_segment_to_a. -/
def value_from_segment_to_a (segment : String) (index : Nat) : String :=
  "@" ++ segment ++ "\nD=M\n@" ++ Nat.repr index ++ "\nA=D+A\nA=M\n"

/-- AsmWriter::constant_to_a. -/
def constant_to_a (index : Nat) : String := "@" ++ Nat.repr index ++ "\n"

/-- AsmWriter::save_segment_addr_to_r13. -/
def save_segment_addr_to_r13 (segment : String) (index : Nat) : String :=
  "@" ++ segment ++ "\nD=M\n@" ++ Nat.repr index ++ "\nD=D+A\n@R13\nM=D\n"

/-- AsmWriter::save_d_to_r13_segment_address. -/
def save_d_to_r13_segment_address : String := "@R13\nA=M\nM=D\n"

/-- AsmWriter::write_push.  `addr + index` in the Absolute arm is u16
addition (overflow aborts in debug profile, hence the guard). -/
def AsmWriter.write_push (self : AsmWriter) (segment : String) (index : Nat)
    (class_name : String) : RRes String String :=
  if segment = "constant" then
    .ok (constant_to_a index ++ push_from_a)
  else if segment = "static" then
    .ok ("@" ++ class_name ++ "." ++ Nat.repr index ++ "\nA=M\n" ++ push_from_a)
  else
    match self.symbol_table.get_address segment with
    | none => .err "Invalid segment provided"
    | some (.Relative addr) =>
      .ok (value_from_segment_to_a addr index ++ push_from_a)
    | some (.Absolute addr) =>
      if addr + index < 65536 then
        .ok ("@" ++ Nat.repr (addr + index) ++ "\nA=M\n" ++ push_from_a)
      else .crash

/-- AsmWriter::write_pop (same u16 guard in the Absolute arm). -/
def AsmWriter.write_pop (self : AsmWriter) (segment : String) (index : Nat)
    (class_name : String) : RRes String String :=
  if segment = "constant" then
    .err "Cannot pop to constant"
  else if segment = "static" then
    .ok (write_pop_to_d ++ "@" ++ class_name ++ "." ++ Nat.repr index ++ "\nM=D\n")
  else
    match self.symbol_table.get_address segment with
    | none => .err "Invalid segment provided"
    | some (.Relative addr) =>
      .ok (save_segment_addr_to_r13 addr index ++ write_pop_to_d ++
        save_d_to_r13_segment_address)
    | some (.Absolute addr) =>
      if addr + index < 65536 then
        .ok (write_pop_to_d ++ "@" ++ Nat.repr (addr + index) ++ "\nM=D\n")
      else .crash

/-- AsmWriter::get_operands. -/
def get_operands : String := write_pop_to_d ++ peek_next_value

/-- AsmWriter::write_comparison: the comparison tail with the
`BRANCH{bcount}` / `BRANCH{bcount}END` label pair taken from the current
`branch_count` of the writer. -/
def AsmWriter.write_comparison (self : AsmWriter) (instruction : String) : String :=
  "D=M-D\n@BRANCH" ++ Nat.repr self.branch_count ++ "\nD;" ++ instruction ++
    "\nD=0\n@SP\nA=M\nM=D\n@SP\nM=M+1\n@BRANCH" ++ Nat.repr self.branch_count ++
    "END\n0;JMP\n(BRANCH" ++ Nat.repr self.branch_count ++
    ")\nD=-1\n@SP\nA=M\nM=D\n@SP\nM=M+1\n(BRANCH" ++ Nat.repr self.branch_count ++
    "END)\n"

/-- AsmWriter::equal: emit the comparison with the current branch counter,
then `branch_count += 1` (u16 increment, overflow aborts). -/
def AsmWriter.equal (self : AsmWriter) : RRun (String × AsmWriter) :=
  if self.branch_count + 1 < 65536 then
    .ret (get_operands ++ self.write_comparison "JEQ",
      { self with branch_count := self.branch_count + 1 })
  else .crash

/-- AsmWriter::greater_than (same shape as `equal`, jump `JGT`). -/
def AsmWriter.greater_than (self : AsmWriter) : RRun (String × AsmWriter) :=
  if self.branch_count + 1 < 65536 then
    .ret (get_operands ++ self.write_comparison "JGT",
      { self with branch_count := self.branch_count + 1 })
  else .crash

/-- AsmWriter::less_than (same shape as `equal`, jump `JLT`). -/
def AsmWriter.less_than (self : AsmWriter) : RRun (String × AsmWriter) :=
  if self.branch_count + 1 < 65536 then
    .ret (get_operands ++ self.write_comparison "JLT",
      { self with branch_count := self.branch_count + 1 })
  else .crash

/-- AsmWriter::add. -/
def AsmWriter.add (_self : AsmWriter) : String :=
  get_operands ++ "D=D+M\n" ++ push_from_d

/-- AsmWriter::and (arm named andOp: `and` collides with the core name). -/
def AsmWriter.andOp (_self : AsmWriter) : String :=
  get_operands ++ "D=D&M\n" ++ push_from_d

/-- AsmWriter::or. -/
def AsmWriter.orOp (_self : AsmWriter) : String :=
  get_operands ++ "D=D|M\n" ++ push_from_d

/-- AsmWriter::subtract. -/
def AsmWriter.subtract (_self : AsmWriter) : String :=
  get_operands ++ "D=M-D\n" ++ push_from_d

/-- AsmWriter::not. -/
def AsmWriter.notOp (_self : AsmWriter) : String :=
  write_pop_to_d ++ "D=!D\n" ++ push_from_d

/-- AsmWriter::negate. -/
def AsmWriter.negate (_self : AsmWriter) : String :=
  write_pop_to_d ++ "D=-D\n" ++ push_from_d

/-- AsmWriter::write_arithmetic: the nine operators succeed (the three
comparisons also bump `branch_count`); any other TokenType is
`Err("Invalid arithmetic command")` with no state change. -/
def AsmWriter.write_arithmetic (self : AsmWriter) (token_type : TokenType) :
    RRes String String × AsmWriter :=
  match token_type with
  | .Add => (.ok self.add, self)
  | .Subtract => (.ok self.subtract, self)
  | .And => (.ok self.andOp, self)
  | .Or => (.ok self.orOp, self)
  | .Not => (.ok self.notOp, self)
  | .Negate => (.ok self.negate, self)
  | .Equal =>
    match self.equal with
    | .ret (out, s) => (.ok out, s)
    | .crash => (.crash, self)
  | .GreaterThan =>
    match self.greater_than with
    | .ret (out, s) => (.ok out, s)
    | .crash => (.crash, self)
  | .LessThan =>
    match self.less_than with
    | .ret (out, s) => (.ok out, s)
    | .crash => (.crash, self)
  | _ => (.err "Invalid arithmetic command", self)

/-- AsmWriter::write_label. -/
def write_label (label : String) : String := "(" ++ label ++ ")\n"

/-- AsmWriter::write_goto — the source wraps the string in `Ok` and never
errs; the embedding returns the string (call sites unwrap it). -/
def write_goto (label : String) : String := "@" ++ label ++ "\n0;JMP\n"

/-- AsmWriter::write_if (the source takes `&mut self` but mutates nothing
and always returns `Ok`). -/
def write_if (label : String) : String :=
  write_pop_to_d ++ "@" ++ label ++ "\nD;JLT\n"

/-- AsmWriter::write_call: the `RET-{symbol}${line_count}` return label is
built from the callee name and the current writer `line_count` (there is
no dedicated call-site counter in the source), and nothing is mutated.
`nargs + 5` is u16 addition (overflow aborts); the inner
`write_goto(...).unwrap()` always succeeds. -/
def AsmWriter.write_call (self : AsmWriter) (symbol : String) (nargs : Nat) :
    RRun String :=
  if nargs + 5 < 65536 then
    .ret ("@RET-" ++ symbol ++ "$" ++ Nat.repr self.line_count ++ "\n" ++
      push_from_a ++
      "@LCL\n" ++ push_from_m ++
      "@ARG\n" ++ push_from_m ++
      "@THIS\n" ++ push_from_m ++
      "@THAT\n" ++ push_from_m ++
      "@SP\nD=M\n@" ++ Nat.repr (nargs + 5) ++
        "\nD=D-A\n@ARG\nM=D\n@SP\nD=M\n@LCL\nM=D\n" ++
      write_goto symbol ++
      "(RET-" ++ symbol ++ "$" ++ Nat.repr self.line_count ++ ")\n")
  else .crash

/-- Repetitions (`nvars` many) of the loop body of AsmWriter::write_function. -/
def repeatStr : Nat → String → String
  | 0, _ => ""
  | n + 1, s => s ++ repeatStr n s

/-- AsmWriter::write_function: entry label then `nvars` copies of
`write_push("constant", 0, "").unwrap()`.  That push is the constant arm of
write_push and always succeeds, so the unwrap never aborts; the `.crash`
arm is dead code kept to mirror the shape of the unwrap. -/
def AsmWriter.write_function (self : AsmWriter) (symbol : String) (nvars : Nat) :
    RRun String :=
  match self.write_push "constant" 0 "" with
  | .ok zeroPush => .ret ("(" ++ symbol ++ ")\n" ++ repeatStr nvars zeroPush)
  | _ => .crash

/-- AsmWriter::write_return: frame teardown.  The inner
`write_pop("argument", 0, "").unwrap()` aborts if the symbol table has no
"argument" entry. -/
def AsmWriter.write_return (self : AsmWriter) : RRun String :=
  match self.write_pop "argument" 0 "" with
  | .ok popStr =>
    .ret ("@LCL\nD=M\n@R14\nM=D\n@5\nA=D-A\nD=M\n@R15\nM=D\n" ++ popStr ++
      "@ARG\nD=M+1\n@SP\nM=D\n@R14\nAM=M-1\nD=M\n@THAT\nM=D\n@R14\nAM=M-1\nD=M\n@THIS\nM=D\n@R14\nAM=M-1\nD=M\n@ARG\nM=D\n@R14\nAM=M-1\nD=M\n@LCL\nM=D\n@R15\nA=M\n0;JMP\n")
  | _ => .crash

/-- AsmWriter::write_init: set SP to 256, then append
`write_call("Sys.init", 0).unwrap()` evaluated at the current writer
state (write_init mutates nothing). -/
def AsmWriter.write_init (self : AsmWriter) : RRes String String :=
  match self.write_call "Sys.init" 0 with
  | .ret callStr => .ok ("@256\nD=A\n@SP\nM=D\n" ++ callStr)
  | .crash => .crash

/-- AsmWriter::write_command: build the `//Command #{line_count}` comment,
dispatch on the command (the `?` operator propagates any Err before any
mutation of `line_count`), then `line_count += 1` (u16 increment, overflow
aborts) and prepend the comment.  The state component of the pair is the
writer after the call. -/
def AsmWriter.write_command (self : AsmWriter) (command : Command) :
    RRes String String × AsmWriter :=
  let outstr := "//Command #" ++ Nat.repr self.line_count ++ "\n"
  let step : RRes String String × AsmWriter :=
    match command with
    | .Push segment index class_name => (self.write_push segment index class_name, self)
    | .Pop segment index class_name => (self.write_pop segment index class_name, self)
    | .Arithmetic token_type => self.write_arithmetic token_type
    | .If label => (.ok (write_if label), self)
    | .Goto label => (.ok (write_goto label), self)
    | .Label label => (.ok (write_label label), self)
    | .Call symbol nargs =>
      (match self.write_call symbol nargs with
       | .ret t => .ok t
       | .crash => .crash, self)
    | .Function symbol nvars =>
      (match self.write_function symbol nvars with
       | .ret t => .ok t
       | .crash => .crash, self)
    | .Return =>
      (match self.write_return with
       | .ret t => .ok t
       | .crash => .crash, self)
  match step with
  | (.ok comm, s) =>
    if s.line_count + 1 < 65536 then
      (.ok (outstr ++ comm), { s with line_count := s.line_count + 1 })
    else (.crash, s)
  | other => other

/-- The generation loop of the driver (vm.rs): write each parsed command in
order, concatenating per-command outputs; stop at the first non-ok result. -/
def writeCommands (s : AsmWriter) : List Command → RRes String (List String) × AsmWriter
  | [] => (.ok [], s)
  | c :: cs =>
    match s.write_command c with
    | (.ok out, s₂) =>
      match writeCommands s₂ cs with
      | (.ok outs, s₃) => (.ok (out :: outs), s₃)
      | (.err e, s₃) => (.err e, s₃)
      | (.crash, s₃) => (.crash, s₃)
    | (.err e, s₂) => (.err e, s₂)
    | (.crash, s₂) => (.crash, s₂)

/-- The writer the driver builds: AsmWriter::from over the startup table. -/
def startupWriter : AsmWriter := AsmWriter.fromTable startupTable

/-! ## Auxiliary definitions used by the theorems -/

/-- occursIn p s: `p` occurs as a contiguous substring of `s`. -/
def occursIn (p s : String) : Bool := subL p.data s.data

/-- The decimal digit list of `n`, most significant first — a structural
reformulation of the fuel-based core function `Nat.toDigitsCore`, used to prove that
`Nat.repr` is injective. -/
def natDigits (n : Nat) : List Char :=
  if _h : n < 10 then [Nat.digitChar n]
  else natDigits (n / 10) ++ [Nat.digitChar (n % 10)]
termination_by n
decreasing_by simp_wf; omega

/-- The three comparison operators of write_arithmetic. -/
def isComparisonOp : TokenType → Bool
  | .Equal | .GreaterThan | .LessThan => true
  | _ => false

/-- The output list of a successful writeCommands run ([] otherwise); used
to state theorems without spelling out the generated strings. -/
def resList : RRes String (List String) → List String
  | .ok l => l
  | _ => []

/-- RRes.okStr: the string of a successful single write ("" otherwise). -/
def RRes.okStr : RRes String String → String
  | .ok s => s
  | _ => ""

/-! ## Validation of the embedding against the test expectations of the
repository (tokenizer.rs, parser.rs, writer.rs tests) -/

example : defaultTokenizer.tokenize "push local 2" =
    [Token.fromParts "push" .Push true,
     Token.fromParts "local" .Symbol false,
     Token.fromParts "2" .Index false] := by decide

example : defaultTokenizer.tokenize "add eq //test inline" =
    [Token.fromParts "add" .Add true,
     Token.fromParts "eq" .Equal true,
     Token.fromParts "//test" .Comment false] := by decide

example : defaultTokenizer.tokenize "" = [] := by decide

example : defaultTokenizer.tokenize "add eq %$^%" =
    [Token.fromParts "add" .Add true,
     Token.fromParts "eq" .Equal true,
     Token.new .Undefined] := by decide

example : parseU16 "2" = some 2 := by decide

example : parseU16 "65535" = some 65535 := by decide

example : parseU16 "65536" = none := by decide

example : parseU16 "2x" = none := by decide

example : parseU16 "" = none := by decide

example :
    (Parser.fromLines [defaultTokenizer.tokenize "push local 0"] "Main").advance.1 =
      RRes.ok (some (Command.Push "local" 0 "Main")) := by decide

example :
    (Parser.fromLines [defaultTokenizer.tokenize "add"] "Main").advance.1 =
      RRes.ok (some (Command.Arithmetic .Add)) := by decide

example :
    (Parser.fromLines [defaultTokenizer.tokenize "// hello"] "Main").advance.1 =
      RRes.ok none := by decide

example : startupTable.get_address "local" = some (.Relative "LCL") := by decide

example : startupTable.get_address "temp" = some (.Absolute 5) := by decide

example : startupTable.get_address "pointer" = none := by decide

example :
    (startupWriter.write_command (.Arithmetic .Add)).1 =
      RRes.ok "//Command #0\n@SP\nAM=M-1\nD=M\n@SP\nAM=M-1\nD=D+M\n@SP\nA=M\nM=D\n@SP\nM=M+1\n" := by
  decide

example :
    (startupWriter.write_command (.Push "static" 0 "Main")).1 =
      RRes.ok "//Command #0\n@Main.0\nA=M\nD=A\n@SP\nA=M\nM=D\n@SP\nM=M+1\n" := by
  decide

example :
    (startupWriter.write_command (.Pop "static" 0 "Main")).1 =
      RRes.ok "//Command #0\n@SP\nAM=M-1\nD=M\n@Main.0\nM=D\n" := by
  decide

example :
    (startupWriter.write_command (.Arithmetic .Equal)).1 =
      RRes.ok "//Command #0\n@SP\nAM=M-1\nD=M\n@SP\nAM=M-1\nD=M-D\n@BRANCH0\nD;JEQ\nD=0\n@SP\nA=M\nM=D\n@SP\nM=M+1\n@BRANCH0END\n0;JMP\n(BRANCH0)\nD=-1\n@SP\nA=M\nM=D\n@SP\nM=M+1\n(BRANCH0END)\n" := by
  decide

/-! ## Helper lemmas: substring occurrence -/

theorem subL_nil (l : List Char) : subL [] l = true := by
  cases l <;> simp [subL, pfxB, List.isEmpty]

theorem pfxB_self_append (p b : List Char) : pfxB p (p ++ b) = true := by
  induction p with
  | nil => simp [pfxB]
  | cons a as ih => simp [pfxB, ih]

theorem subL_self_append (p b : List Char) : subL p (p ++ b) = true := by
  cases p with
  | nil => exact subL_nil _
  | cons c cs => simp [subL, pfxB, pfxB_self_append]

theorem subL_append_left (p a l : List Char) (h : subL p l = true) :
    subL p (a ++ l) = true := by
  induction a with
  | nil => simpa
  | cons c cs ih => simp [subL, ih]

theorem subL_middle (p a b : List Char) : subL p (a ++ (p ++ b)) = true :=
  subL_append_left p a (p ++ b) (subL_self_append p b)

theorem subL_of_eq (p l a b : List Char) (h : l = a ++ (p ++ b)) :
    subL p l = true := by
  rw [h]; exact subL_middle p a b

/-! ## Helper lemmas: injectivity of the decimal numeral printer -/

theorem natDigits_eq (n : Nat) :
    natDigits n = if n < 10 then [Nat.digitChar n]
      else natDigits (n / 10) ++ [Nat.digitChar (n % 10)] := by
  rw [natDigits]
  split <;> simp_all

theorem natDigits_ne_nil (n : Nat) : natDigits n ≠ [] := by
  rw [natDigits_eq]
  split <;> simp

theorem digitChar_inj_lt10 :
    ∀ a, a < 10 → ∀ b, b < 10 → Nat.digitChar a = Nat.digitChar b → a = b := by
  decide

theorem natDigits_inj : ∀ m n : Nat, natDigits m = natDigits n → m = n := by
  intro m
  induction m using Nat.strong_induction_on with
  | _ m ih =>
    intro n h
    rw [natDigits_eq m, natDigits_eq n] at h
    by_cases hm : m < 10 <;> by_cases hn : n < 10
    · rw [if_pos hm, if_pos hn] at h
      exact digitChar_inj_lt10 m hm n hn (List.singleton_injective h)
    · rw [if_pos hm, if_neg hn] at h
      have := congrArg List.length h
      simp at this
      exact absurd this (natDigits_ne_nil _)
    · rw [if_neg hm, if_pos hn] at h
      have := congrArg List.length h
      simp at this
      exact absurd this (natDigits_ne_nil _)
    · rw [if_neg hm, if_neg hn] at h
      obtain ⟨h₁, h₂⟩ := List.append_inj' h (by simp)
      have hdiv : m / 10 = n / 10 := ih (m / 10) (by omega) (n / 10) h₁
      have hmod : m % 10 = n % 10 :=
        digitChar_inj_lt10 (m % 10) (by omega) (n % 10) (by omega)
          (List.singleton_injective h₂)
      omega

theorem toDigitsCore_eq_natDigits :
    ∀ (fuel n : Nat) (ds : List Char), n < fuel →
      Nat.toDigitsCore 10 fuel n ds = natDigits n ++ ds := by
  intro fuel
  induction fuel with
  | zero => intro n ds h; omega
  | succ fuel ih =>
    intro n ds h
    by_cases h0 : n / 10 = 0
    · have hn : n < 10 := by omega
      simp [Nat.toDigitsCore, h0, natDigits_eq n, hn, Nat.mod_eq_of_lt hn]
    · have hlt : n / 10 < fuel := by omega
      have hn : ¬ n < 10 := by omega
      simp [Nat.toDigitsCore, h0, ih (n / 10) (Nat.digitChar (n % 10) :: ds) hlt,
        natDigits_eq n, hn]

theorem repr_data (n : Nat) : (Nat.repr n).data = natDigits n := by
  show ((Nat.toDigits 10 n).asString).data = natDigits n
  rw [Nat.toDigits, toDigitsCore_eq_natDigits (n + 1) n [] (by omega)]
  simp [List.asString]

theorem repr_inj {m n : Nat} (h : Nat.repr m = Nat.repr n) : m = n :=
  natDigits_inj m n (by rw [← repr_data, ← repr_data, h])

theorem append_repr_inj (pre : String) {a b : Nat}
    (h : pre ++ Nat.repr a = pre ++ Nat.repr b) : a = b := by
  apply repr_inj
  have hd := congrArg String.data h
  simp only [String.data_append] at hd
  exact String.ext (List.append_cancel_left hd)

/-! ## Helper lemmas: labels emitted by write_comparison and write_call -/

theorem write_comparison_label (pre : String) (s : AsmWriter) (jmp : String) :
    occursIn ("(BRANCH" ++ Nat.repr s.branch_count ++ ")\n")
      (pre ++ s.write_comparison jmp) = true := by
  apply subL_of_eq _ _
    ((pre ++ "D=M-D\n@BRANCH" ++ Nat.repr s.branch_count ++ "\nD;" ++ jmp ++
      "\nD=0\n@SP\nA=M\nM=D\n@SP\nM=M+1\n@BRANCH" ++ Nat.repr s.branch_count ++
      "END\n0;JMP\n").data)
    (("D=-1\n@SP\nA=M\nM=D\n@SP\nM=M+1\n(BRANCH" ++ Nat.repr s.branch_count ++
      "END)\n").data)
  simp only [AsmWriter.write_comparison, String.data_append, List.cons_append,
    List.nil_append, List.append_assoc]

theorem write_comparison_label_end (pre : String) (s : AsmWriter) (jmp : String) :
    occursIn ("(BRANCH" ++ Nat.repr s.branch_count ++ "END)\n")
      (pre ++ s.write_comparison jmp) = true := by
  apply subL_of_eq _ _
    ((pre ++ "D=M-D\n@BRANCH" ++ Nat.repr s.branch_count ++ "\nD;" ++ jmp ++
      "\nD=0\n@SP\nA=M\nM=D\n@SP\nM=M+1\n@BRANCH" ++ Nat.repr s.branch_count ++
      "END\n0;JMP\n(BRANCH" ++ Nat.repr s.branch_count ++
      ")\nD=-1\n@SP\nA=M\nM=D\n@SP\nM=M+1\n").data)
    ([])
  simp only [AsmWriter.write_comparison, String.data_append, List.cons_append,
    List.nil_append, List.append_assoc, List.append_nil]

theorem write_call_label (pre : String) (s : AsmWriter) (symbol : String) (nargs : Nat)
    (out : String) (h : s.write_call symbol nargs = .ret out) :
    occursIn ("(RET-" ++ symbol ++ "$" ++ Nat.repr s.line_count ++ ")\n")
      (pre ++ out) = true := by
  unfold AsmWriter.write_call at h
  split at h
  · injection h with h
    subst h
    apply subL_of_eq _ _
      ((pre ++ "@RET-" ++ symbol ++ "$" ++ Nat.repr s.line_count ++ "\n" ++
        push_from_a ++ "@LCL\n" ++ push_from_m ++ "@ARG\n" ++ push_from_m ++
        "@THIS\n" ++ push_from_m ++ "@THAT\n" ++ push_from_m ++
        "@SP\nD=M\n@" ++ Nat.repr (nargs + 5) ++
        "\nD=D-A\n@ARG\nM=D\n@SP\nD=M\n@LCL\nM=D\n" ++ write_goto symbol).data)
      ([])
    simp only [push_from_a, push_from_m, write_goto, String.data_append,
      List.cons_append, List.nil_append, List.append_assoc, List.append_nil]
  · exact absurd h (by simp)

theorem write_command_comparison_cases (s : AsmWriter) (t : TokenType)
    (h : isComparisonOp t = true) :
    (s.write_command (.Arithmetic t)).1 = RRes.crash ∨
    ∃ out, s.write_command (.Arithmetic t) =
        (.ok out, { s with line_count := s.line_count + 1,
                           branch_count := s.branch_count + 1 }) ∧
      occursIn ("(BRANCH" ++ Nat.repr s.branch_count ++ ")\n") out = true ∧
      occursIn ("(BRANCH" ++ Nat.repr s.branch_count ++ "END)\n") out = true := by
  cases t <;> simp only [isComparisonOp] at h
  all_goals try exact absurd h (by decide)
  case Equal =>
    by_cases hb : s.branch_count + 1 < 65536
    · by_cases hl : s.line_count + 1 < 65536
      · right
        refine ⟨_, by simp [AsmWriter.write_command, AsmWriter.write_arithmetic,
          AsmWriter.equal, hb, hl]; rfl, ?_, ?_⟩
        · rw [← String.append_assoc]
          exact write_comparison_label _ _ _
        · rw [← String.append_assoc]
          exact write_comparison_label_end _ _ _
      · left
        simp [AsmWriter.write_command, AsmWriter.write_arithmetic, AsmWriter.equal,
          hb, hl]
    · left
      simp [AsmWriter.write_command, AsmWriter.write_arithmetic, AsmWriter.equal, hb]
  case GreaterThan =>
    by_cases hb : s.branch_count + 1 < 65536
    · by_cases hl : s.line_count + 1 < 65536
      · right
        refine ⟨_, by simp [AsmWriter.write_command, AsmWriter.write_arithmetic,
          AsmWriter.greater_than, hb, hl]; rfl, ?_, ?_⟩
        · rw [← String.append_assoc]
          exact write_comparison_label _ _ _
        · rw [← String.append_assoc]
          exact write_comparison_label_end _ _ _
      · left
        simp [AsmWriter.write_command, AsmWriter.write_arithmetic,
          AsmWriter.greater_than, hb, hl]
    · left
      simp [AsmWriter.write_command, AsmWriter.write_arithmetic,
        AsmWriter.greater_than, hb]
  case LessThan =>
    by_cases hb : s.branch_count + 1 < 65536
    · by_cases hl : s.line_count + 1 < 65536
      · right
        refine ⟨_, by simp [AsmWriter.write_command, AsmWriter.write_arithmetic,
          AsmWriter.less_than, hb, hl]; rfl, ?_, ?_⟩
        · rw [← String.append_assoc]
          exact write_comparison_label _ _ _
        · rw [← String.append_assoc]
          exact write_comparison_label_end _ _ _
      · left
        simp [AsmWriter.write_command, AsmWriter.write_arithmetic,
          AsmWriter.less_than, hb, hl]
    · left
      simp [AsmWriter.write_command, AsmWriter.write_arithmetic,
        AsmWriter.less_than, hb]

theorem write_command_call_cases (s : AsmWriter) (f : String) (n : Nat) :
    (s.write_command (.Call f n)).1 = RRes.crash ∨
    ∃ out, s.write_command (.Call f n) =
        (.ok out, { s with line_count := s.line_count + 1 }) ∧
      occursIn ("(RET-" ++ f ++ "$" ++ Nat.repr s.line_count ++ ")\n") out = true := by
  by_cases hn : n + 5 < 65536
  · by_cases hl : s.line_count + 1 < 65536
    · right
      refine ⟨_, by simp [AsmWriter.write_command, AsmWriter.write_call, hn, hl]; rfl, ?_⟩
      exact write_call_label _ s f n _ (by simp [AsmWriter.write_call, hn])
    · left
      simp [AsmWriter.write_command, AsmWriter.write_call, hn, hl]
  · left
    simp [AsmWriter.write_command, AsmWriter.write_call, hn]

theorem writeComparisons_ix :
    ∀ (ops : List TokenType) (s : AsmWriter) (outs : List String) (s' : AsmWriter),
      (∀ t ∈ ops, isComparisonOp t = true) →
      writeCommands s (ops.map Command.Arithmetic) = (.ok outs, s') →
      s'.branch_count = s.branch_count + ops.length ∧
      s'.line_count = s.line_count + ops.length ∧
      outs.length = ops.length ∧
      (∀ i (hi : i < outs.length),
        occursIn ("(BRANCH" ++ Nat.repr (s.branch_count + i) ++ ")\n")
          (outs.get ⟨i, hi⟩) = true ∧
        occursIn ("(BRANCH" ++ Nat.repr (s.branch_count + i) ++ "END)\n")
          (outs.get ⟨i, hi⟩) = true) := by
  intro ops
  induction ops with
  | nil =>
    intro s outs s' _ heq
    simp only [List.map_nil, writeCommands] at heq
    injection heq with e1 e2
    injection e1 with e1
    subst e1
    subst e2
    simp
  | cons t ts ih =>
    intro s outs s' hops heq
    rcases write_command_comparison_cases s t (hops t (List.mem_cons_self t ts)) with
      hcrash | ⟨out, hstep, ho1, ho2⟩
    · exfalso
      rcases hw : s.write_command (.Arithmetic t) with ⟨r, s₂⟩
      rw [hw] at hcrash
      simp only at hcrash
      subst hcrash
      simp [List.map_cons, writeCommands, hw] at heq
    · rcases hrest : writeCommands
        { s with line_count := s.line_count + 1, branch_count := s.branch_count + 1 }
        (ts.map Command.Arithmetic) with ⟨r₂, s₃⟩
      simp only [List.map_cons, writeCommands, hstep, hrest] at heq
      cases r₂ with
      | crash => simp at heq
      | err e => simp at heq
      | ok outs₂ =>
        injection heq with e1 e2
        injection e1 with e1
        subst e2
        subst e1
        obtain ⟨hb', hl', hlen, hix⟩ := ih _ outs₂ s₃
          (fun u hu => hops u (List.mem_cons_of_mem _ hu)) hrest
        simp only at hb' hl'
        refine ⟨?_, ?_, ?_, ?_⟩
        · simp only [List.length_cons]
          omega
        · simp only [List.length_cons]
          omega
        · simp [hlen]
        · intro i hi
          cases i with
          | zero =>
            simpa using ⟨ho1, ho2⟩
          | succ i =>
            have hi' : i < outs₂.length := by
              simpa using hi
            have harg : s.branch_count + (i + 1) = s.branch_count + 1 + i := by omega
            rw [harg]
            have := hix i hi'
            simp only at this
            simpa using this

theorem writeCalls_ix :
    ∀ (ns : List Nat) (f : String) (s : AsmWriter) (outs : List String) (s' : AsmWriter),
      writeCommands s (ns.map (Command.Call f)) = (.ok outs, s') →
      s'.line_count = s.line_count + ns.length ∧
      outs.length = ns.length ∧
      (∀ i (hi : i < outs.length),
        occursIn ("(RET-" ++ f ++ "$" ++ Nat.repr (s.line_count + i) ++ ")\n")
          (outs.get ⟨i, hi⟩) = true) := by
  intro ns
  induction ns with
  | nil =>
    intro f s outs s' heq
    simp only [List.map_nil, writeCommands] at heq
    injection heq with e1 e2
    injection e1 with e1
    subst e1
    subst e2
    simp
  | cons n ns ih =>
    intro f s outs s' heq
    rcases write_command_call_cases s f n with hcrash | ⟨out, hstep, ho1⟩
    · exfalso
      rcases hw : s.write_command (.Call f n) with ⟨r, s₂⟩
      rw [hw] at hcrash
      simp only at hcrash
      subst hcrash
      simp [List.map_cons, writeCommands, hw] at heq
    · rcases hrest : writeCommands { s with line_count := s.line_count + 1 }
        (ns.map (Command.Call f)) with ⟨r₂, s₃⟩
      simp only [List.map_cons, writeCommands, hstep, hrest] at heq
      cases r₂ with
      | crash => simp at heq
      | err e => simp at heq
      | ok outs₂ =>
        injection heq with e1 e2
        injection e1 with e1
        subst e2
        subst e1
        obtain ⟨hl', hlen, hix⟩ := ih f _ outs₂ s₃ hrest
        simp only at hl'
        refine ⟨?_, ?_, ?_⟩
        · simp only [List.length_cons]
          omega
        · simp [hlen]
        · intro i hi
          cases i with
          | zero =>
            simpa using ho1
          | succ i =>
            have hi' : i < outs₂.length := by
              simpa using hi
            have harg : s.line_count + (i + 1) = s.line_count + 1 + i := by omega
            rw [harg]
            have := hix i hi'
            simp only at this
            simpa using this

theorem write_arithmetic_err (s : AsmWriter) (t : TokenType) (e : String)
    (h : (s.write_arithmetic t).1 = .err e) : (s.write_arithmetic t).2 = s := by
  cases t
  case Equal =>
    rcases he : s.equal with _ | ⟨o, s₂⟩ <;> simp [AsmWriter.write_arithmetic, he] at h
  case GreaterThan =>
    rcases he : s.greater_than with _ | ⟨o, s₂⟩ <;>
      simp [AsmWriter.write_arithmetic, he] at h
  case LessThan =>
    rcases he : s.less_than with _ | ⟨o, s₂⟩ <;>
      simp [AsmWriter.write_arithmetic, he] at h
  all_goals simp [AsmWriter.write_arithmetic] at h ⊢

/-! ## Claim theorems -/

/-- C6: for every generator state, index and class name, write_command on
`Pop{segment:"constant"}` returns the "Cannot pop to constant" error and
leaves the writer untouched — no assembly text is emitted and no counter
moves. -/
theorem c6_pop_constant_always_errors (s : AsmWriter) (index : Nat)
    (class_name : String) :
    s.write_command (.Pop "constant" index class_name) =
      (.err "Cannot pop to constant", s) := by
  simp [AsmWriter.write_command, AsmWriter.write_pop]

/-- C7: write_init returns a prologue that first sets SP to 256 and then
appends exactly the code of the synthetic Call "Sys.init" with 0 arguments
(evaluated at the current writer state), so the Sys.init call text always
follows the stack-pointer initialization. -/
theorem c7_write_init_layout (s : AsmWriter) :
    ∃ callStr, s.write_call "Sys.init" 0 = .ret callStr ∧
      s.write_init = .ok ("@256\nD=A\n@SP\nM=D\n" ++ callStr) := by
  rcases hc : s.write_call "Sys.init" 0 with _ | body
  · exact absurd hc (by simp [AsmWriter.write_call])
  · exact ⟨body, rfl, by simp [AsmWriter.write_init, hc]⟩

/-- C9: write_command is atomic on error — whenever it returns an `err`
(invalid segment, pop to constant, or a non-arithmetic token passed as
Arithmetic), the commands-emitted counter line_count and the
comparison-branch counter branch_count are exactly what they were. -/
theorem c9_error_leaves_counters (s : AsmWriter) (c : Command) (e : String)
    (h : (s.write_command c).1 = .err e) :
    (s.write_command c).2.line_count = s.line_count ∧
    (s.write_command c).2.branch_count = s.branch_count := by
  suffices hst : (s.write_command c).2 = s by
    rw [hst]
    exact ⟨rfl, rfl⟩
  cases c with
  | Push segment index class_name =>
    rcases hp : s.write_push segment index class_name with _ | e' | out
    · simp [AsmWriter.write_command, hp] at h
    · simp [AsmWriter.write_command, hp]
    · simp only [AsmWriter.write_command, hp] at h
      split at h <;> simp at h
  | Pop segment index class_name =>
    rcases hp : s.write_pop segment index class_name with _ | e' | out
    · simp [AsmWriter.write_command, hp] at h
    · simp [AsmWriter.write_command, hp]
    · simp only [AsmWriter.write_command, hp] at h
      split at h <;> simp at h
  | Arithmetic t =>
    rcases ha : s.write_arithmetic t with ⟨r, s₂⟩
    rcases r with _ | e' | out
    · simp [AsmWriter.write_command, ha] at h
    · have h2 := write_arithmetic_err s t e' (by rw [ha])
      rw [ha] at h2
      simp only at h2
      simp [AsmWriter.write_command, ha, h2]
    · simp only [AsmWriter.write_command, ha] at h
      split at h <;> simp at h
  | If label =>
    simp only [AsmWriter.write_command] at h
    split at h <;> simp at h
  | Goto label =>
    simp only [AsmWriter.write_command] at h
    split at h <;> simp at h
  | Label label =>
    simp only [AsmWriter.write_command] at h
    split at h <;> simp at h
  | Call symbol nargs =>
    rcases hc : s.write_call symbol nargs with _ | body
    · simp [AsmWriter.write_command, hc] at h
    · simp only [AsmWriter.write_command, hc] at h
      split at h <;> simp at h
  | Function symbol nvars =>
    rcases hf : s.write_function symbol nvars with _ | body
    · simp [AsmWriter.write_command, hf] at h
    · simp only [AsmWriter.write_command, hf] at h
      split at h <;> simp at h
  | Return =>
    rcases hr : s.write_return with _ | body
    · simp [AsmWriter.write_command, hr] at h
    · simp only [AsmWriter.write_command, hr] at h
      split at h <;> simp at h

/-- C9 witness: a concrete erroring call (pop to constant) from the startup
writer, with both counters unchanged. -/
theorem c9_witness :
    (startupWriter.write_command (.Pop "constant" 0 "Main")).1 =
      RRes.err "Cannot pop to constant" ∧
    (startupWriter.write_command (.Pop "constant" 0 "Main")).2.line_count =
      startupWriter.line_count ∧
    (startupWriter.write_command (.Pop "constant" 0 "Main")).2.branch_count =
      startupWriter.branch_count :=
  ⟨by decide,
   (c9_error_leaves_counters startupWriter (.Pop "constant" 0 "Main")
     "Cannot pop to constant" (by decide)).1,
   (c9_error_leaves_counters startupWriter (.Pop "constant" 0 "Main")
     "Cannot pop to constant" (by decide)).2⟩

/-- C1 (amended): after the startup population, the five table-resident
built-in segment names resolve to exactly the Address descriptors of the
data model — base-register indirection through LCL/ARG/THIS/THAT for
local/argument/this/that, absolute base 5 for temp — and every other name
(including static and constant, which are handled outside the table)
resolves to nothing. -/
theorem c1_startup_table_lookup :
    startupTable.get_address "local" = some (.Relative "LCL") ∧
    startupTable.get_address "argument" = some (.Relative "ARG") ∧
    startupTable.get_address "this" = some (.Relative "THIS") ∧
    startupTable.get_address "that" = some (.Relative "THAT") ∧
    startupTable.get_address "temp" = some (.Absolute 5) ∧
    ∀ name : String,
      name ∉ (["local", "argument", "this", "that", "temp"] : List String) →
      startupTable.get_address name = none := by
  refine ⟨by decide, by decide, by decide, by decide, by decide, ?_⟩
  intro name hname
  simp only [List.mem_cons, List.not_mem_nil, or_false, not_or] at hname
  obtain ⟨h1, h2, h3, h4, h5⟩ := hname
  have htab : startupTable = ⟨[("temp", .Absolute 5), ("that", .Relative "THAT"),
      ("this", .Relative "THIS"), ("argument", .Relative "ARG"),
      ("local", .Relative "LCL")]⟩ := by decide
  rw [SymbolTable.get_address, htab]
  have e1 : (name == "local") = false := beq_eq_false_iff_ne.mpr h1
  have e2 : (name == "argument") = false := beq_eq_false_iff_ne.mpr h2
  have e3 : (name == "this") = false := beq_eq_false_iff_ne.mpr h3
  have e4 : (name == "that") = false := beq_eq_false_iff_ne.mpr h4
  have e5 : (name == "temp") = false := beq_eq_false_iff_ne.mpr h5
  simp [List.lookup, e1, e2, e3, e4, e5]

/-- C1 witness: the unknown-name half applied at the segment name
"pointer", which is not in the table. -/
theorem c1_witness :
    ("pointer" : String) ∉ (["local", "argument", "this", "that", "temp"] : List String) ∧
    startupTable.get_address "pointer" = none :=
  ⟨by decide, c1_startup_table_lookup.2.2.2.2.2 "pointer" (by decide)⟩

/-- C1 counterexample: the claim as stated lists six names (including
static) that the lookup should resolve to an Address, with only names
outside that set returning nothing; but static has no table entry (the
data model handles it outside the table), so get_address "static" returns
none. -/
theorem c1_counterexample :
    ("static" : String) ∈
      (["local", "argument", "this", "that", "temp", "static"] : List String) ∧
    startupTable.get_address "static" = none := by
  decide

/-- C2: a tokenized line whose first token is Push/Pop but with fewer than
two following tokens makes Parser::advance abort on `Option::unwrap` (the
crash case) instead of returning ArgumentError; with two following tokens
of the wrong kinds it does return ArgumentError("Memory Access"). -/
theorem c2_push_missing_operands_crash :
    (Parser.fromLines [defaultTokenizer.tokenize "push"] "Main").advance.1 =
      RRes.crash ∧
    (Parser.fromLines [defaultTokenizer.tokenize "push local local"] "Main").advance.1 =
      RRes.err (.ArgumentError "Memory Access" 1) := by
  decide

/-- C4 (amended): a word that matches none of the tokenizer rules yields
an Undefined token whose text field is the EMPTY string — the text of the
original word is discarded, because the token is Token::new(Undefined) and no
rule ever assigns the word to it.  Stated positionally: if no earlier word
of the line is a comment, the token at the position of the word is exactly
⟨"", Undefined, false⟩. -/
theorem c4_unmatched_word_empty_text (ws₁ : List String) (w : String)
    (ws₂ : List String)
    (hw : ∀ r ∈ default_ruleset, r.matches_str w = false)
    (hc : ∀ u ∈ ws₁, (tokenizeWord default_ruleset u).token_type ≠ TokenType.Comment) :
    (tokenizeWords default_ruleset (ws₁ ++ w :: ws₂)).get? ws₁.length =
      some { token := "", token_type := TokenType.Undefined, is_keyword := false } := by
  revert hc
  induction ws₁ with
  | nil =>
    intro _
    have hfind : default_ruleset.find? (fun r => r.matches_str w) = none :=
      List.find?_eq_none.mpr (fun r hr => by simp [hw r hr])
    have hu : tokenizeWord default_ruleset w = Token.new .Undefined := by
      simp [tokenizeWord, hfind]
    simp [tokenizeWords, hu, Token.new]
  | cons u us ih =>
    intro hc
    have hu := hc u (List.mem_cons_self u us)
    simp only [List.cons_append, tokenizeWords]
    rw [if_neg hu]
    simpa using ih (fun v hv => hc v (List.mem_cons_of_mem _ hv))

/-- C4 witness: the amended theorem applied at the line "add %$^% eq" —
the unmatched middle word produces the empty-text Undefined token at
position 1. -/
theorem c4_witness :
    (∀ r ∈ default_ruleset, r.matches_str "%$^%" = false) ∧
    (tokenizeWords default_ruleset (["add"] ++ "%$^%" :: ["eq"])).get? 1 =
      some { token := "", token_type := TokenType.Undefined, is_keyword := false } :=
  ⟨by decide, c4_unmatched_word_empty_text ["add"] "%$^%" ["eq"] (by decide) (by decide)⟩

/-- C4 counterexample: the claim as stated says the Undefined token carries
the text of the original word; tokenizing the unmatched word "%$^%" yields a
token whose text is "", not "%$^%" (this matches the expectation of the
repository test token_test_undefined). -/
theorem c4_counterexample :
    defaultTokenizer.tokenize "%$^%" =
      [{ token := "", token_type := TokenType.Undefined, is_keyword := false }] ∧
    ({ token := "", token_type := TokenType.Undefined, is_keyword := false } :
      Token).token ≠ "%$^%" := by
  decide

/-- C10 (amended): advance is only safe under has_more_commands.  When the
cursor is below the number of stored token lists AND below the u16 maximum,
the line lookup succeeds and the cursor increases by exactly one; at cursor
65535 the u16 increment overflows (aborting in debug builds) so the cursor
does not advance; at or past the end of the stored lists the unwrap
of the lookup aborts instead of returning a value or an error. -/
theorem c10_advance_cursor_contract :
    (∀ p : Parser, p.next_command < p.tokens.length → p.next_command + 1 < 65536 →
      (p.tokens.get? p.next_command).isSome = true ∧
      p.advance.2.next_command = p.next_command + 1) ∧
    (∀ p : Parser, p.tokens.length ≤ p.next_command →
      p.advance = (.crash, p)) := by
  constructor
  · intro p h1 h2
    rcases hg : p.tokens.get? p.next_command with _ | tl
    · rw [List.get?_eq_none] at hg
      omega
    · refine ⟨rfl, ?_⟩
      rw [List.get?_eq_getElem?] at hg
      simp [Parser.advance, hg, h2]
  · intro p h
    have hg : p.tokens.get? p.next_command = none := List.get?_eq_none.mpr h
    rw [List.get?_eq_getElem?] at hg
    simp [Parser.advance, hg]

/-- C10 witness: the in-bounds half applied to a one-line parser at cursor
0, and the past-the-end half applied to an empty parser. -/
theorem c10_witness :
    ((Parser.fromLines [[]] "Main").tokens.get?
      (Parser.fromLines [[]] "Main").next_command).isSome = true ∧
    (Parser.fromLines [[]] "Main").advance.2.next_command =
      (Parser.fromLines [[]] "Main").next_command + 1 ∧
    (Parser.fromLines ([] : List TokenList) "").advance =
      (.crash, Parser.fromLines ([] : List TokenList) "") :=
  ⟨(c10_advance_cursor_contract.1 (Parser.fromLines [[]] "Main")
      (by decide) (by decide)).1,
   (c10_advance_cursor_contract.1 (Parser.fromLines [[]] "Main")
      (by decide) (by decide)).2,
   c10_advance_cursor_contract.2 (Parser.fromLines ([] : List TokenList) "")
     (by decide)⟩

theorem get?_replicate_lt {α : Type} (a : α) :
    ∀ n k, k < n → (List.replicate n a).get? k = some a := by
  intro n
  induction n with
  | zero =>
    intro k hk
    omega
  | succ n ih =>
    intro k hk
    cases k with
    | zero => rfl
    | succ k => exact ih k (by omega)

theorem advanceN_replicate :
    ∀ k, k ≤ 65535 →
      advanceN k (Parser.fromLines (List.replicate 65537 ([] : TokenList)) "") =
        { tokens := List.replicate 65537 [], next_command := k,
          total_commands := 1, class_name := "" } := by
  intro k
  induction k with
  | zero =>
    intro _
    show Parser.fromLines (List.replicate 65537 ([] : TokenList)) "" = _
    unfold Parser.fromLines
    rw [List.length_replicate]
  | succ k ih =>
    intro hk
    rw [advanceN, ih (by omega)]
    have hg : (List.replicate 65537 ([] : TokenList)).get? k = some [] :=
      get?_replicate_lt [] 65537 k (by omega)
    show (Parser.advance _).2 = _
    unfold Parser.advance
    dsimp only
    rw [hg]
    dsimp only
    rw [if_pos (show k + 1 < 65536 by omega)]

/-- C10 counterexample: the parser built by Parser::from over 65537 stored
(empty) token lists, advanced 65535 times, has cursor 65535 — strictly
below the number of stored lists — yet the next advance does not increase
the cursor by one: the u16 cursor increment overflows (a crash in the model),
refuting the unguarded claim that the cursor increases by exactly one. -/
theorem c10_counterexample :
    advanceN 65535 (Parser.fromLines (List.replicate 65537 ([] : TokenList)) "") =
      { tokens := List.replicate 65537 [], next_command := 65535,
        total_commands := 1, class_name := "" } ∧
    ({ tokens := List.replicate 65537 [], next_command := 65535,
       total_commands := 1, class_name := "" } : Parser).next_command <
      ({ tokens := List.replicate 65537 [], next_command := 65535,
         total_commands := 1, class_name := "" } : Parser).tokens.length ∧
    (Parser.advance
      { tokens := List.replicate 65537 [], next_command := 65535,
        total_commands := 1, class_name := "" }).2.next_command ≠ 65535 + 1 ∧
    (Parser.advance
      { tokens := List.replicate 65537 [], next_command := 65535,
        total_commands := 1, class_name := "" }).1 = RRes.crash := by
  have hg : (List.replicate 65537 ([] : TokenList)).get? 65535 = some [] :=
    get?_replicate_lt [] 65537 65535 (by omega)
  refine ⟨advanceN_replicate 65535 (by omega), ?_, ?_, ?_⟩
  · show (65535 : Nat) < (List.replicate 65537 ([] : TokenList)).length
    rw [List.length_replicate]
    omega
  · show (Parser.advance _).2.next_command ≠ 65535 + 1
    unfold Parser.advance
    dsimp only
    rw [hg]
    dsimp only
    rw [if_neg (by omega : ¬((65535 : Nat) + 1 < 65536))]
    dsimp only
    omega
  · show (Parser.advance _).1 = RRes.crash
    unfold Parser.advance
    dsimp only
    rw [hg]
    dsimp only
    rw [if_neg (by omega : ¬((65535 : Nat) + 1 < 65536))]

/-- C5: a sequence of comparison commands (Equal/GreaterThan/LessThan)
written by one generator that completes without aborting emits, for the
i-th comparison, the fresh branch label pair BRANCH{n}/BRANCH{n}END with
n = starting branch counter + i; the counter is incremented once per
comparison (final counter = start + k), and the k label pairs are pairwise
distinct with strictly increasing n. -/
theorem c5_comparison_branch_labels (s : AsmWriter) (ops : List TokenType)
    (hops : ∀ t ∈ ops, isComparisonOp t = true)
    (hok : (writeCommands s (ops.map Command.Arithmetic)).1.isOk = true) :
    (writeCommands s (ops.map Command.Arithmetic)).2.branch_count =
      s.branch_count + ops.length ∧
    (resList (writeCommands s (ops.map Command.Arithmetic)).1).length = ops.length ∧
    (∀ i (hi : i < (resList (writeCommands s (ops.map Command.Arithmetic)).1).length),
      occursIn ("(BRANCH" ++ Nat.repr (s.branch_count + i) ++ ")\n")
        ((resList (writeCommands s (ops.map Command.Arithmetic)).1).get ⟨i, hi⟩) =
        true ∧
      occursIn ("(BRANCH" ++ Nat.repr (s.branch_count + i) ++ "END)\n")
        ((resList (writeCommands s (ops.map Command.Arithmetic)).1).get ⟨i, hi⟩) =
        true) ∧
    (∀ i j : Nat, i < j → j < ops.length →
      s.branch_count + i < s.branch_count + j ∧
      ("BRANCH" ++ Nat.repr (s.branch_count + i) : String) ≠
        "BRANCH" ++ Nat.repr (s.branch_count + j)) := by
  rcases hw : writeCommands s (ops.map Command.Arithmetic) with ⟨r, s'⟩
  rcases r with _ | e | outs
  · rw [hw] at hok
    simp [RRes.isOk] at hok
  · rw [hw] at hok
    simp [RRes.isOk] at hok
  · obtain ⟨hb, hl, hlen, hix⟩ := writeComparisons_ix ops s outs s' hops hw
    refine ⟨hb, by simpa [resList] using hlen, ?_, ?_⟩
    · intro i hi
      exact hix i (by simpa [resList] using hi)
    · intro i j hij hj
      refine ⟨by omega, fun hcon => ?_⟩
      have := append_repr_inj "BRANCH" hcon
      omega

/-- C5 witness: two comparisons (eq then lt) from the startup writer
complete, and the branch counter advances by exactly 2. -/
theorem c5_witness :
    (∀ t ∈ [TokenType.Equal, TokenType.LessThan], isComparisonOp t = true) ∧
    (writeCommands startupWriter
      ([TokenType.Equal, TokenType.LessThan].map Command.Arithmetic)).1.isOk = true ∧
    (writeCommands startupWriter
      ([TokenType.Equal, TokenType.LessThan].map Command.Arithmetic)).2.branch_count =
      startupWriter.branch_count + 2 :=
  ⟨by decide, by decide, by
    have h := c5_comparison_branch_labels startupWriter
      [TokenType.Equal, TokenType.LessThan] (by decide) (by decide)
    simpa using h.1⟩

/-- C3 (amended): every return-address label is derived from the callee
name and the commands-emitted counter line_count (there is no dedicated
call-site counter); line_count is incremented once per successfully written
command, so k Call commands written through write_command produce k
pairwise distinct RET-{callee}${n} labels with strictly increasing n —
but the synthetic Sys.init call of write_init reuses the current
line_count without incrementing anything (see the counterexample). -/
theorem c3_call_labels_from_line_count (s : AsmWriter) (f : String) (ns : List Nat)
    (hok : (writeCommands s (ns.map (Command.Call f))).1.isOk = true) :
    (writeCommands s (ns.map (Command.Call f))).2.line_count =
      s.line_count + ns.length ∧
    (resList (writeCommands s (ns.map (Command.Call f))).1).length = ns.length ∧
    (∀ i (hi : i < (resList (writeCommands s (ns.map (Command.Call f))).1).length),
      occursIn ("(RET-" ++ f ++ "$" ++ Nat.repr (s.line_count + i) ++ ")\n")
        ((resList (writeCommands s (ns.map (Command.Call f))).1).get ⟨i, hi⟩) =
        true) ∧
    (∀ i j : Nat, i < j → j < ns.length →
      s.line_count + i < s.line_count + j ∧
      ("RET-" ++ f ++ "$" ++ Nat.repr (s.line_count + i) : String) ≠
        "RET-" ++ f ++ "$" ++ Nat.repr (s.line_count + j)) := by
  rcases hw : writeCommands s (ns.map (Command.Call f)) with ⟨r, s'⟩
  rcases r with _ | e | outs
  · rw [hw] at hok
    simp [RRes.isOk] at hok
  · rw [hw] at hok
    simp [RRes.isOk] at hok
  · obtain ⟨hl, hlen, hix⟩ := writeCalls_ix ns f s outs s' hw
    refine ⟨hl, by simpa [resList] using hlen, ?_, ?_⟩
    · intro i hi
      exact hix i (by simpa [resList] using hi)
    · intro i j hij hj
      refine ⟨by omega, fun hcon => ?_⟩
      have := append_repr_inj ("RET-" ++ f ++ "$") hcon
      omega

/-- C3 witness: two calls to the same function from the startup writer
complete, and the commands-emitted counter advances by exactly 2 (so their
labels RET-Foo$0 and RET-Foo$1 are distinct). -/
theorem c3_witness :
    (writeCommands startupWriter
      ([0, 3].map (Command.Call "Foo"))).1.isOk = true ∧
    (writeCommands startupWriter
      ([0, 3].map (Command.Call "Foo"))).2.line_count =
      startupWriter.line_count + 2 :=
  ⟨by decide, by
    have h := c3_call_labels_from_line_count startupWriter "Foo" [0, 3] (by decide)
    simpa using h.1⟩

/-- C3 counterexample: the claim says every generated call (including the
synthetic Sys.init call of write_init) draws a fresh ordinal from a
dedicated call-site counter, making all return labels distinct.  But
the synthetic call of write_init uses the current line_count (0) without
incrementing anything, and a user "call Sys.init 0" written immediately
afterwards (the writer state is unchanged by write_init) uses line_count 0
again: both fragments contain the same return-address label
(RET-Sys.init$0), so two generated calls to the same callee received equal
labels. -/
theorem c3_counterexample :
    startupWriter.write_init.isOk = true ∧
    (startupWriter.write_command (.Call "Sys.init" 0)).1.isOk = true ∧
    occursIn "(RET-Sys.init$0)\n" startupWriter.write_init.okStr = true ∧
    occursIn "(RET-Sys.init$0)\n"
      (startupWriter.write_command (.Call "Sys.init" 0)).1.okStr = true := by
  decide

/-- C8: tokenization stops immediately after emitting a Comment token — the
tokens of a line are unaffected by anything after the first comment-matching
word; a token list that parses to a Command keeps parsing to the same
Command when extra tokens (such as a trailing Comment token) follow; and
concretely "add // note" parses identically to "add" for every parser
state. -/
theorem c8_inline_comment_ignored :
    (∀ (ws₁ : List String) (w : String) (ws₂ : List String),
      (tokenizeWord default_ruleset w).token_type = TokenType.Comment →
      tokenizeWords default_ruleset (ws₁ ++ w :: ws₂) =
        tokenizeWords default_ruleset (ws₁ ++ [w])) ∧
    (∀ (p : Parser) (tl extra : List Token) (c : Command),
      p.parse tl = .ok (some c) → p.parse (tl ++ extra) = .ok (some c)) ∧
    (∀ p : Parser, p.parse (defaultTokenizer.tokenize "add // note") =
      p.parse (defaultTokenizer.tokenize "add")) := by
  refine ⟨?_, ?_, ?_⟩
  · intro ws₁ w ws₂ hw
    induction ws₁ with
    | nil => simp [tokenizeWords, hw]
    | cons u us ih =>
      by_cases hu : (tokenizeWord default_ruleset u).token_type = TokenType.Comment <;>
        simp [tokenizeWords, hu, ih]
  · intro p tl extra c h
    cases tl with
    | nil => simp [Parser.parse] at h
    | cons c₀ rest =>
      simp only [Parser.parse, List.cons_append] at h ⊢
      by_cases h1 : c₀.token_type = TokenType.Comment
      · simp [h1] at h
      · rw [if_neg h1] at h ⊢
        by_cases h2 : c₀.is_keyword
        · rw [if_neg (not_not_intro h2)] at h ⊢
          cases h3 : c₀.token_type <;> rw [h3] at h <;>
            rcases rest with _ | ⟨a1, _ | ⟨a2, r2⟩⟩ <;> simp_all
        · simp [h2] at h
  · intro p
    have h1 : defaultTokenizer.tokenize "add // note" =
        [Token.fromParts "add" .Add true, Token.fromParts "//" .Comment false] := by
      decide
    have h2 : defaultTokenizer.tokenize "add" = [Token.fromParts "add" .Add true] := by
      decide
    rw [h1, h2]
    simp [Parser.parse, Token.fromParts]

/-- C8 witness: the comment-stop half applied at line ["add", "//x",
"note"], and the parse-extension half applied at [add] ++ [comment]. -/
theorem c8_witness :
    (tokenizeWord default_ruleset "//x").token_type = TokenType.Comment ∧
    tokenizeWords default_ruleset (["add"] ++ "//x" :: ["note"]) =
      tokenizeWords default_ruleset (["add"] ++ ["//x"]) ∧
    (Parser.fromLines [] "M").parse
        ([Token.fromParts "add" .Add true] ++ [Token.fromParts "//" .Comment false]) =
      .ok (some (Command.Arithmetic .Add)) :=
  ⟨by decide,
   c8_inline_comment_ignored.1 ["add"] "//x" ["note"] (by decide),
   c8_inline_comment_ignored.2.1 (Parser.fromLines [] "M")
     [Token.fromParts "add" .Add true] [Token.fromParts "//" .Comment false]
     (Command.Arithmetic .Add) (by decide)⟩
